import Mathlib

/-!
Verification development for the `luit.eu/comments` service (src/main.go):
a per-(host, path) comment store over Redis with time-derived identifiers,
an allow-list enablement resolver, an Akismet moderation step, and a
bounded, HTML-escaped listing of approved comments.

The embedding models the Redis store as an explicit `Store` value and each
Go function as a state-passing Lean function. External nondeterminism is
made explicit:
  * connection failures of individual Redis commands are injected through
    boolean fault parameters (redigo surfaces them as non-nil errors);
  * the wall-clock samples `time.Now().Unix()` taken by the allocator's
    retry loop are a list of `ZStep`s (one candidate per iteration, with
    that iteration's ZADD fault flag), which also serves as fuel for the
    unbounded loop — `none` means the loop was still running;
  * the Akismet HTTP response is an `Option String` oracle (`none` for a
    network error, `some body` for a response body).
Every Redis command a function issues is recorded in a `List Effect`
trace, so "no store access" claims are statements about the trace.
-/

namespace Comments

/-- A comment thread, identified by the URL's authority and path,
mirroring the `{luit.eu/comments://%s%s}` key scheme of src/main.go. -/
structure Thread where
  host : String
  path : String
deriving DecidableEq

/-- The fields `saveComment` persists with HMSET: `redis.Args{}.AddFlat`
flattens the exported, redis-tagged fields of `commentSubmitRequest`
(`permalink, user_ip, user_agent, referrer, comment_author,
comment_author_email, comment_author_url, comment_content`); the
unexported `host`/`path` are not stored. -/
structure CommentRecord where
  permalink : String
  userIP : String
  userAgent : String
  referrer : String
  author : String
  authorEmail : String
  authorURL : String
  content : String
deriving DecidableEq

/-- The zero value of the Go `comment` struct: what `redis.ScanStruct`
leaves behind when HGETALL on a missing hash key returns an empty reply. -/
def emptyRecord : CommentRecord :=
  ⟨"", "", "", "", "", "", "", ""⟩

/-- A Redis sorted set whose scores equal its members (every ZADD in
src/main.go uses the member as its own score): the ascending list of its
members. ZADD of `c` places it at its score position and never duplicates
an existing member. -/
def zinsert (c : Int) : List Int → List Int
  | [] => [c]
  | x :: xs =>
    if c < x then c :: x :: xs
    else
      if c = x then x :: xs
      else x :: zinsert c xs

/-- The Redis store as seen through the key schema of src/main.go:
`auto_enable` set, per-thread `:enabled` flag, per-thread `:all` and
`:approved` zsets (score = member = timestamp, held as the ascending
member list, which is how Redis stores and ranges a zset), and
per-(thread, id) comment hashes. An absent `:enabled` key is `none`
(redigo's `ErrNil`); an absent comment hash is `none` (HGETALL then
returns an empty reply, not an error). -/
structure Store where
  autoEnable : List String
  enabled : Thread → Option Bool
  allIdx : Thread → List Int
  approvedIdx : Thread → List Int
  commentRec : Thread → Int → Option CommentRecord

/-- SET of the `:enabled` key for one thread. -/
def setEnabled (s : Store) (t : Thread) (b : Bool) : Store :=
  { s with enabled := fun u => if u = t then some b else s.enabled u }

/-- ZADD of `id` (score = member) into the thread's `:all` zset. -/
def addAll (s : Store) (t : Thread) (id : Int) : Store :=
  { s with allIdx := fun u => if u = t then zinsert id (s.allIdx u) else s.allIdx u }

/-- ZADD of `id` (score = member) into the thread's `:approved` zset. -/
def addApproved (s : Store) (t : Thread) (id : Int) : Store :=
  { s with approvedIdx := fun u => if u = t then zinsert id (s.approvedIdx u) else s.approvedIdx u }

/-- HMSET of the comment hash at `(thread, id)`. -/
def putRecord (s : Store) (t : Thread) (id : Int) (c : CommentRecord) : Store :=
  { s with commentRec := fun u j => if u = t ∧ j = id then some c else s.commentRec u j }

/-- `keyAutoEnable` of src/main.go. -/
def keyAutoEnable : String :=
  "\x7bluit.eu/comments\x7d:auto_enable"

/-- `fmt.Sprintf(keyEnabled, host, path)` of src/main.go. -/
def keyEnabled (host path : String) : String :=
  "\x7bluit.eu/comments://" ++ host ++ path ++ "\x7d:enabled"

/-- `fmt.Sprintf(keyAll, host, path)` of src/main.go. -/
def keyAll (host path : String) : String :=
  "\x7bluit.eu/comments://" ++ host ++ path ++ "\x7d:all"

/-- `fmt.Sprintf(keyApproved, host, path)` of src/main.go. -/
def keyApproved (host path : String) : String :=
  "\x7bluit.eu/comments://" ++ host ++ path ++ "\x7d:approved"

/-- `fmt.Sprintf(keyComment, host, path, id)` of src/main.go (`%d` on an
`int64` prints the decimal value, which is `toString` on `Int`). -/
def keyComment (host path : String) (id : Int) : String :=
  "\x7bluit.eu/comments://" ++ host ++ path ++ "\x7d:comment:" ++ toString id

/-- A Redis command issued over the pooled connection. -/
inductive StoreOp where
  | get : String → StoreOp
  | set : String → String → StoreOp
  | sismember : String → String → StoreOp
  | zadd : String → Int → Int → StoreOp
  | hmset : String → StoreOp
  | hgetall : String → StoreOp
  | zrangebyscore : String → StoreOp
deriving DecidableEq

/-- An externally visible effect: a Redis command or the Akismet HTTPS
form POST. -/
inductive Effect where
  | redis : StoreOp → Effect
  | httpPostForm : String → Effect
deriving DecidableEq

/-- Fault injection for the three Redis commands `autoEnabled` can issue. -/
structure AEFaults where
  getFail : Bool
  sisFail : Bool
  setFail : Bool

/-- `autoEnabled` of src/main.go. GET the `:enabled` flag; a present value
is returned as-is. On `ErrNil` (absent key) fall back to SISMEMBER on the
`auto_enable` set; a member host caches the decision with
`SET ... "true"`, whose result and error the Go code discards entirely.
A GET connection error (anything but `ErrNil`) or a SISMEMBER error
propagates as `.error`. -/
def autoEnabled (f : AEFaults) (s : Store) (t : Thread) :
    Except Unit Bool × Store × List Effect :=
  if f.getFail then (.error (), s, [.redis (.get (keyEnabled t.host t.path))])
  else
    match s.enabled t with
    | some b => (.ok b, s, [.redis (.get (keyEnabled t.host t.path))])
    | none =>
      if f.sisFail then
        (.error (), s,
         [.redis (.get (keyEnabled t.host t.path)),
          .redis (.sismember keyAutoEnable t.host)])
      else
        if t.host ∈ s.autoEnable then
          if f.setFail then
            (.ok true, s,
              [.redis (.get (keyEnabled t.host t.path)),
               .redis (.sismember keyAutoEnable t.host),
               .redis (.set (keyEnabled t.host t.path) ("true"))])
          else
            (.ok true, setEnabled s t true,
              [.redis (.get (keyEnabled t.host t.path)),
               .redis (.sismember keyAutoEnable t.host),
               .redis (.set (keyEnabled t.host t.path) ("true"))])
        else
          (.ok false, s,
           [.redis (.get (keyEnabled t.host t.path)),
            .redis (.sismember keyAutoEnable t.host)])

/-- One iteration of `saveComment`'s retry loop: the wall-clock second
sampled by `time.Now().Unix()` at that iteration, and whether that
iteration's ZADD fails with a connection error. -/
structure ZStep where
  time : Int
  zaddFail : Bool
deriving DecidableEq

/-- The retry loop of `saveComment` (src/main.go lines 259-271): sample a
candidate, ZADD it into the `:all` zset (score = member, so re-adding an
existing member reports 0 added and changes nothing), return the candidate
if it was newly inserted, otherwise sleep a second and retry with the next
sample. A ZADD connection error returns immediately with that error. The
list of steps is fuel: `none` means every sampled candidate collided, the
loop still running. -/
def saveCommentLoop (t : Thread) : List ZStep → Store → Option (Except Unit Int × Store × List Effect)
  | [], _ => none
  | st :: rest, s =>
    if st.zaddFail then
      some (.error (), s, [.redis (.zadd (keyAll t.host t.path) st.time st.time)])
    else
      if st.time ∈ s.allIdx t then
        (saveCommentLoop t rest s).map fun r =>
          (r.1, r.2.1, Effect.redis (.zadd (keyAll t.host t.path) st.time st.time) :: r.2.2)
      else
        some (.ok st.time, addAll s t st.time,
          [.redis (.zadd (keyAll t.host t.path) st.time st.time)])

/-- The submission data `cleanCommentSubmitRequest` produces (the Go
struct of the same name, all fields strings). -/
structure commentSubmitRequest where
  Permalink : String
  host : String
  path : String
  UserIP : String
  UserAgent : String
  Referrer : String
  Author : String
  AuthorEmail : String
  AuthorURL : String
  Content : String
deriving DecidableEq

/-- The comment hash `saveComment`'s HMSET stores for a request. -/
def recordOf (req : commentSubmitRequest) : CommentRecord :=
  ⟨req.Permalink, req.UserIP, req.UserAgent, req.Referrer,
   req.Author, req.AuthorEmail, req.AuthorURL, req.Content⟩

/-- `saveComment` of src/main.go: run the allocation loop, then HMSET the
comment hash at the allocated id. An HMSET connection error is returned to
the caller while the id stays in the `:all` zset — nothing is rolled back.
(The `ok != "OK"` check only logs.) -/
def saveComment (steps : List ZStep) (hmsetFail : Bool) (req : commentSubmitRequest)
    (s : Store) : Option (Except Unit Int × Store × List Effect) :=
  (saveCommentLoop ⟨req.host, req.path⟩ steps s).map fun r =>
    match r with
    | (.error e, s₁, effs) => (.error e, s₁, effs)
    | (.ok id, s₁, effs) =>
      if hmsetFail then
        (.error (), s₁, effs ++ [.redis (.hmset (keyComment req.host req.path id))])
      else
        (.ok id, putRecord s₁ ⟨req.host, req.path⟩ id (recordOf req),
         effs ++ [.redis (.hmset (keyComment req.host req.path id))])

/-- Go's `strconv.ParseBool`: accepts exactly these twelve literals. -/
def goParseBool (s : String) : Option Bool :=
  if s = "1" ∨ s = "t" ∨ s = "T" ∨ s = "true" ∨ s = "TRUE" ∨ s = "True" then some true
  else
    if s = "0" ∨ s = "f" ∨ s = "F" ∨ s = "false" ∨ s = "FALSE" ∨ s = "False" then some false
    else none

/-- `fmt.Sprintf(akismetCheckURL, akismetKey)` of src/main.go. -/
def akismetCheckURL (key : String) : String :=
  "https://" ++ key ++ ".rest.akismet.com/1.1/comment-check"

/-- `autoApproveComment` of src/main.go. With no configured Akismet key it
returns `(false, nil)` at once, touching neither the store nor the
network. Otherwise: HGETALL the comment hash (fault-injectable), POST the
form to Akismet (`resp` oracle: `none` = network error, `some body` = the
response body), parse the body with `strconv.ParseBool` (a non-boolean
body is the "unexpected return value from akismet" error), and when the
verdict is "not spam" ZADD the id into the `:approved` zset, reporting
whether the member was newly added. A spam verdict changes nothing. -/
def autoApproveComment (akismetKey : String) (hgetallFail : Bool) (resp : Option String)
    (zaddFail : Bool) (s : Store) (host path : String) (id : Int) :
    Except Unit Bool × Store × List Effect :=
  if akismetKey = "" then (.ok false, s, [])
  else
    if hgetallFail then (.error (), s, [.redis (.hgetall (keyComment host path id))])
    else
      match resp with
      | none =>
        (.error (), s,
         [.redis (.hgetall (keyComment host path id)),
          .httpPostForm (akismetCheckURL akismetKey)])
      | some body =>
        match goParseBool body with
        | none =>
          (.error (), s,
           [.redis (.hgetall (keyComment host path id)),
            .httpPostForm (akismetCheckURL akismetKey)])
        | some isSpam =>
          if isSpam then
            (.ok false, s,
             [.redis (.hgetall (keyComment host path id)),
              .httpPostForm (akismetCheckURL akismetKey)])
          else
            if zaddFail then
              (.error (), s,
               [.redis (.hgetall (keyComment host path id)),
                .httpPostForm (akismetCheckURL akismetKey),
                .redis (.zadd (keyApproved host path) id id)])
            else
              (.ok (decide (id ∉ s.approvedIdx ⟨host, path⟩)),
               addApproved s ⟨host, path⟩ id,
               [.redis (.hgetall (keyComment host path id)),
                .httpPostForm (akismetCheckURL akismetKey),
                .redis (.zadd (keyApproved host path) id id)])

/-- The Go `comment` struct: the part sent through the API. -/
structure comment where
  ID : String
  Author : String
  Content : String
deriving DecidableEq

/-- `html.EscapeString` on one character: escapes `&`, `'`, `<`, `>`, `"`. -/
def escapeChar (c : Char) : String :=
  if c = '&' then "&amp;"
  else if c = '\'' then "&#39;"
  else if c = '<' then "&lt;"
  else if c = '>' then "&gt;"
  else if c = '"' then "&#34;"
  else String.singleton c

/-- Go's `html.EscapeString`. -/
def escapeString (s : String) : String :=
  String.join (s.toList.map escapeChar)

/-- The identifiers `getComments`'s range query returns:
`ZRANGEBYSCORE key -inf +inf LIMIT 0 10` lists the zset ascending by score
(= by value, since score = member) and keeps the first 10. -/
def listedIds (s : Store) (t : Thread) : List Int :=
  (s.approvedIdx t).take 10

/-- How `getComments` renders one listed id: HGETALL the comment hash (an
absent hash is an empty reply, which `redis.ScanStruct` turns into the
zero-valued struct), set `ID` to the id string, HTML-escape author and
content. -/
def renderComment (s : Store) (t : Thread) (id : Int) : comment :=
  ⟨toString id,
   escapeString ((s.commentRec t id).getD emptyRecord).author,
   escapeString ((s.commentRec t id).getD emptyRecord).content⟩

/-- The HGETALL loop of `getComments`: a connection failure on any
fetch aborts with that error; otherwise each id is rendered in order. -/
def getCommentsLoop (hgetallFail : Int → Bool) (s : Store) (t : Thread) :
    List Int → Except Unit (List comment) × List Effect
  | [] => (.ok [], [])
  | id :: rest =>
    if hgetallFail id then (.error (), [.redis (.hgetall (keyComment t.host t.path id))])
    else
      match getCommentsLoop hgetallFail s t rest with
      | (.error e, effs) =>
        (.error e, Effect.redis (.hgetall (keyComment t.host t.path id)) :: effs)
      | (.ok cs, effs) =>
        (.ok (renderComment s t id :: cs),
         Effect.redis (.hgetall (keyComment t.host t.path id)) :: effs)

/-- `getComments` of src/main.go: range-query the `:approved` zset
ascending with LIMIT 0 10, then fetch and render each id. Only connection
errors fail it; it starts from `make([]comment, 0)`, so zero approved
comments yield `.ok []`. -/
def getComments (zrangeFail : Bool) (hgetallFail : Int → Bool) (s : Store) (t : Thread) :
    Except Unit (List comment) × List Effect :=
  if zrangeFail then (.error (), [.redis (.zrangebyscore (keyApproved t.host t.path))])
  else
    ((getCommentsLoop hgetallFail s t (listedIds s t)).1,
     Effect.redis (.zrangebyscore (keyApproved t.host t.path)) ::
       (getCommentsLoop hgetallFail s t (listedIds s t)).2)

/-- The inputs `cleanCommentSubmitRequest` consumes from the HTTP layer.
`url.Parse` is external library code, so its outcome on the submitted
`url` form value is an input: `none` for a parse error, `some (host,
path)` for success. (Go's `url.Parse` accepts relative references: on
`"/post"` it succeeds with an empty `Host`, which is why the empty-host
check exists.) `userIP` is the already-resolved client address
(X-Forwarded-For header or the remote address). -/
structure SubmitInput where
  rawURL : String
  parsed : Option (String × String)
  author : String
  authorEmail : String
  authorURL : String
  content : String
  userIP : String
  userAgent : String
  referrer : String
deriving DecidableEq

/-- `cleanCommentSubmitRequest` of src/main.go: reject a URL that fails to
parse, an empty host, an empty `comment_author`, or an empty
`comment_content`, in that order, before anything touches the store. -/
def cleanCommentSubmitRequest (i : SubmitInput) : Except String commentSubmitRequest :=
  match i.parsed with
  | none => .error ("bad URL parse")
  | some (host, path) =>
    if host = "" then .error ("bad url value")
    else
      if i.author = "" then .error ("bad comment_author value")
      else
        if i.content = "" then .error ("bad comment_content value")
        else
          .ok ⟨i.rawURL, host, path, i.userIP, i.userAgent, i.referrer,
               i.author, i.authorEmail, i.authorURL, i.content⟩

/-- What `commentHandler` writes back: an HTTP 400 with a message, a 500
"backend error", a JSON body of comments, or a 302 redirect to the
permalink. -/
inductive HandlerResult where
  | badRequest : String → HandlerResult
  | backendError : HandlerResult
  | jsonOK : List comment → HandlerResult
  | redirect : String → HandlerResult
deriving DecidableEq

/-- The GET arm of `commentHandler` (src/main.go lines 93-109): parse the
`url` form value (outcome supplied as `parsed`), then — with no check on
the host at all — call `getComments` on `(u.Host, u.Path)`. -/
def commentHandlerGET (parsed : Option (String × String)) (zrangeFail : Bool)
    (hgetallFail : Int → Bool) (s : Store) : HandlerResult × List Effect :=
  match parsed with
  | none => (.badRequest ("bad URL"), [])
  | some (host, path) =>
    match getComments zrangeFail hgetallFail s ⟨host, path⟩ with
    | (.error _, effs) => (.backendError, effs)
    | (.ok cs, effs) => (.jsonOK cs, effs)

/-- The POST arm of `commentHandler` (src/main.go lines 110-144):
validate the submission, resolve enablement, save the comment, then
attempt auto-approval. A failed auto-approval is only logged
("Just the approval that failed, no real harm done"); the handler
redirects to the permalink regardless of the verdict. `none` = the
allocation loop was still retrying when its samples ran out. -/
def commentHandlerPOST (akismetKey : String) (f : AEFaults) (steps : List ZStep)
    (hmsetFail : Bool) (hgetallFail : Bool) (resp : Option String) (zaddFail : Bool)
    (input : SubmitInput) (s : Store) : Option (HandlerResult × Store × List Effect) :=
  match cleanCommentSubmitRequest input with
  | .error e => some (.badRequest e, s, [])
  | .ok req =>
    match autoEnabled f s ⟨req.host, req.path⟩ with
    | (.error _, s₁, e₁) => some (.backendError, s₁, e₁)
    | (.ok false, s₁, e₁) => some (.badRequest ("comments not enabled"), s₁, e₁)
    | (.ok true, s₁, e₁) =>
      match saveComment steps hmsetFail req s₁ with
      | none => none
      | some (.error _, s₂, e₂) => some (.backendError, s₂, e₁ ++ e₂)
      | some (.ok id, s₂, e₂) =>
        some (.redirect req.Permalink,
          (autoApproveComment akismetKey hgetallFail resp zaddFail s₂ req.host req.path id).2.1,
          e₁ ++ e₂ ++
            (autoApproveComment akismetKey hgetallFail resp zaddFail s₂ req.host req.path id).2.2)

/-- A serialized history of ZADD attempts on one thread's `:all` zset by
any number of concurrent submitters (Redis executes commands one at a
time, so every concurrent execution is some such interleaving). Each event
is (submitter, sampled candidate); the result keeps the events whose ZADD
reported a new insertion — each submitter's returned identifier is the
candidate of its successful event. -/
def runEvents : List Int → List (Nat × Int) → List Int × List (Nat × Int)
  | idx, [] => (idx, [])
  | idx, e :: rest =>
    ((runEvents (zinsert e.2 idx) rest).1,
     if e.2 ∈ idx then (runEvents (zinsert e.2 idx) rest).2
     else e :: (runEvents (zinsert e.2 idx) rest).2)

/-! ## Properties of the zset insertion primitive -/

theorem mem_zinsert (c a : Int) (l : List Int) : a ∈ zinsert c l ↔ a = c ∨ a ∈ l := by
  induction l with
  | nil => simp [zinsert]
  | cons x xs ih =>
    simp only [zinsert]
    split
    · simp
    · split
      · rename_i hlt heq
        subst heq
        simp [or_comm, or_assoc]
      · simp [ih]
        tauto

theorem self_mem_zinsert (c : Int) (l : List Int) : c ∈ zinsert c l := by
  rw [mem_zinsert]
  exact Or.inl rfl

theorem subset_zinsert (c : Int) (l : List Int) : l ⊆ zinsert c l := by
  intro a ha
  rw [mem_zinsert]
  exact Or.inr ha

theorem zinsert_subset (c : Int) (l m : List Int) (hc : c ∈ m) (h : l ⊆ m) :
    zinsert c l ⊆ m := by
  intro a ha
  rcases (mem_zinsert c a l).mp ha with rfl | ha
  · exact hc
  · exact h ha

theorem length_zinsert_le (c : Int) (l : List Int) :
    (zinsert c l).length ≤ l.length + 1 := by
  induction l with
  | nil => simp [zinsert]
  | cons x xs ih =>
    simp only [zinsert]
    split
    · simp
    · split
      · simp
      · simpa using Nat.succ_le_succ ih

theorem sorted_zinsert (c : Int) (l : List Int) (h : l.Sorted (· < ·)) :
    (zinsert c l).Sorted (· < ·) := by
  induction l with
  | nil => simp [zinsert]
  | cons x xs ih =>
    rw [List.sorted_cons] at h
    simp only [zinsert]
    split
    · rename_i hlt
      rw [List.sorted_cons]
      refine ⟨?_, List.sorted_cons.mpr h⟩
      intro b hb
      rcases List.mem_cons.mp hb with rfl | hb
      · exact hlt
      · exact lt_trans hlt (h.1 b hb)
    · split
      · exact List.sorted_cons.mpr h
      · rename_i hnlt hne
        rw [List.sorted_cons]
        refine ⟨?_, ih h.2⟩
        intro b hb
        rcases (mem_zinsert c b xs).mp hb with rfl | hb
        · omega
        · exact h.1 b hb

/-! ## State-shape lemmas for the store operations -/

theorem autoEnabled_indices (f : AEFaults) (s : Store) (t : Thread) :
    ((autoEnabled f s t).2.1).allIdx = s.allIdx ∧
    ((autoEnabled f s t).2.1).approvedIdx = s.approvedIdx ∧
    ((autoEnabled f s t).2.1).commentRec = s.commentRec := by
  unfold autoEnabled
  split
  · exact ⟨rfl, rfl, rfl⟩
  · split
    · exact ⟨rfl, rfl, rfl⟩
    · split
      · exact ⟨rfl, rfl, rfl⟩
      · split
        · split
          · exact ⟨rfl, rfl, rfl⟩
          · exact ⟨rfl, rfl, rfl⟩
        · exact ⟨rfl, rfl, rfl⟩

theorem saveCommentLoop_ok (t : Thread) (steps : List ZStep) (s : Store) (id : Int)
    (s₁ : Store) (effs : List Effect)
    (h : saveCommentLoop t steps s = some (.ok id, s₁, effs)) :
    id ∉ s.allIdx t ∧ s₁ = addAll s t id ∧
    effs.getLast? = some (.redis (.zadd (keyAll t.host t.path) id id)) ∧
    ∃ st ∈ steps, st.zaddFail = false ∧ st.time = id := by
  induction steps generalizing effs with
  | nil => simp [saveCommentLoop] at h
  | cons st rest ih =>
    rw [saveCommentLoop] at h
    by_cases hf : st.zaddFail
    · simp [hf] at h
    · by_cases hmem : st.time ∈ s.allIdx t
      · rcases hrec : saveCommentLoop t rest s with _ | ⟨q, s₀, effs₀⟩
        · simp [hf, hmem, hrec] at h
        · rw [hrec] at h
          simp only [hf, hmem, Bool.false_eq_true, if_false, if_true, Option.map_some',
            Option.some.injEq, Prod.mk.injEq] at h
          obtain ⟨hq, hs, heffs⟩ := h
          subst hq
          subst hs
          obtain ⟨hid, hst, hlast, st₀, hst₀, hzf, htime⟩ := ih effs₀ hrec
          refine ⟨hid, hst, ?_, st₀, List.mem_cons_of_mem st hst₀, hzf, htime⟩
          subst heffs
          rcases effs₀ with _ | ⟨e0, es⟩
          · simp at hlast
          · simpa [List.getLast?_cons_cons] using hlast
      · simp only [hf, hmem, Bool.false_eq_true, if_false, Option.some.injEq,
          Prod.mk.injEq, Except.ok.injEq] at h
        obtain ⟨hq, hs, heffs⟩ := h
        subst hq
        subst hs
        subst heffs
        refine ⟨hmem, rfl, rfl, st, List.mem_cons_self st rest, ?_, rfl⟩
        simpa using hf

theorem saveCommentLoop_error (t : Thread) (steps : List ZStep) (s : Store)
    (s₁ : Store) (effs : List Effect)
    (h : saveCommentLoop t steps s = some (.error (), s₁, effs)) : s₁ = s := by
  induction steps generalizing effs with
  | nil => simp [saveCommentLoop] at h
  | cons st rest ih =>
    rw [saveCommentLoop] at h
    by_cases hf : st.zaddFail
    · simp only [hf, if_true, Option.some.injEq, Prod.mk.injEq] at h
      exact h.2.1.symm
    · by_cases hmem : st.time ∈ s.allIdx t
      · rcases hrec : saveCommentLoop t rest s with _ | ⟨q, s₀, effs₀⟩
        · simp [hf, hmem, hrec] at h
        · rw [hrec] at h
          simp only [hf, hmem, Bool.false_eq_true, if_false, if_true, Option.map_some',
            Option.some.injEq, Prod.mk.injEq] at h
          obtain ⟨hq, hs, heffs⟩ := h
          subst hq
          subst hs
          exact ih effs₀ hrec
      · simp [hf, hmem] at h

theorem saveComment_ok (steps : List ZStep) (hmf : Bool) (req : commentSubmitRequest)
    (s : Store) (id : Int) (s₂ : Store) (effs : List Effect)
    (h : saveComment steps hmf req s = some (.ok id, s₂, effs)) :
    id ∉ s.allIdx ⟨req.host, req.path⟩ ∧
    s₂ = putRecord (addAll s ⟨req.host, req.path⟩ id) ⟨req.host, req.path⟩ id (recordOf req) := by
  unfold saveComment at h
  rcases hrec : saveCommentLoop ⟨req.host, req.path⟩ steps s with _ | ⟨q, s₀, effs₀⟩
  · simp [hrec] at h
  · rw [hrec] at h
    simp only [Option.map_some', Option.some.injEq] at h
    match q with
    | .error e => simp at h
    | .ok j =>
      by_cases hmf2 : hmf
      · simp [hmf2] at h
      · simp only [hmf2, Bool.false_eq_true, if_false, Prod.mk.injEq, Except.ok.injEq] at h
        obtain ⟨hj, hs, heffs⟩ := h
        subst hj
        obtain ⟨hid, hst, _, _⟩ := saveCommentLoop_ok _ _ _ _ _ _ hrec
        subst hst
        exact ⟨hid, hs.symm⟩

theorem saveComment_error (steps : List ZStep) (hmf : Bool) (req : commentSubmitRequest)
    (s : Store) (s₂ : Store) (effs : List Effect)
    (h : saveComment steps hmf req s = some (.error (), s₂, effs)) :
    s₂ = s ∨ ∃ id, id ∉ s.allIdx ⟨req.host, req.path⟩ ∧ s₂ = addAll s ⟨req.host, req.path⟩ id := by
  unfold saveComment at h
  rcases hrec : saveCommentLoop ⟨req.host, req.path⟩ steps s with _ | ⟨q, s₀, effs₀⟩
  · simp [hrec] at h
  · rw [hrec] at h
    simp only [Option.map_some', Option.some.injEq] at h
    match q with
    | .error e =>
      simp only [Prod.mk.injEq] at h
      obtain ⟨-, hs, -⟩ := h
      subst hs
      exact Or.inl (saveCommentLoop_error _ _ _ _ _ hrec)
    | .ok j =>
      by_cases hmf2 : hmf
      · simp only [hmf2, if_true, Prod.mk.injEq] at h
        obtain ⟨-, hs, -⟩ := h
        subst hs
        obtain ⟨hid, hst, -, -⟩ := saveCommentLoop_ok _ _ _ _ _ _ hrec
        exact Or.inr ⟨j, hid, hst⟩
      · simp [hmf2] at h

theorem saveComment_hmset_error (steps : List ZStep) (req : commentSubmitRequest)
    (s : Store) (id : Int) (s₁ : Store) (e₁ : List Effect)
    (hloop : saveCommentLoop ⟨req.host, req.path⟩ steps s = some (.ok id, s₁, e₁)) :
    saveComment steps true req s =
      some (.error (), s₁, e₁ ++ [.redis (.hmset (keyComment req.host req.path id))]) := by
  unfold saveComment
  rw [hloop]
  rfl

theorem autoApproveComment_error_state (ak : String) (hgf : Bool) (resp : Option String)
    (zf : Bool) (s : Store) (host path : String) (id : Int)
    (h : (autoApproveComment ak hgf resp zf s host path id).1 = .error ()) :
    (autoApproveComment ak hgf resp zf s host path id).2.1 = s := by
  unfold autoApproveComment at h ⊢
  by_cases hak : ak = ""
  · simp [hak] at h
  · by_cases hg : hgf
    · simp [hak, hg]
    · match resp with
      | none => simp [hak, hg]
      | some body =>
        match hb : goParseBool body with
        | none => simp [hak, hg, hb]
        | some true => simp [hak, hg, hb]
        | some false =>
          by_cases hz : zf
          · simp [hak, hg, hb, hz]
          · simp [hak, hg, hb, hz] at h

theorem autoApproveComment_state (ak : String) (hgf : Bool) (resp : Option String)
    (zf : Bool) (s : Store) (host path : String) (id : Int) :
    (autoApproveComment ak hgf resp zf s host path id).2.1 = s ∨
    (autoApproveComment ak hgf resp zf s host path id).2.1 = addApproved s ⟨host, path⟩ id := by
  unfold autoApproveComment
  by_cases hak : ak = ""
  · simp [hak]
  · by_cases hg : hgf
    · simp [hak, hg]
    · match resp with
      | none => simp [hak, hg]
      | some body =>
        match hb : goParseBool body with
        | none => simp [hak, hg, hb]
        | some true => simp [hak, hg, hb]
        | some false =>
          by_cases hz : zf
          · simp [hak, hg, hb, hz]
          · simp [hak, hg, hb, hz]

theorem getCommentsLoop_nofail (s : Store) (t : Thread) (ids : List Int) :
    getCommentsLoop (fun _ => false) s t ids =
      (.ok (ids.map (renderComment s t)),
       ids.map fun id => .redis (.hgetall (keyComment t.host t.path id))) := by
  induction ids with
  | nil => rfl
  | cons id rest ih =>
    rw [getCommentsLoop, ih]
    simp

theorem runEvents_absorb (evs : List (Nat × Int)) (idx : List Int) (c : Int) (hc : c ∈ idx) :
    c ∈ (runEvents idx evs).1 ∧ c ∉ (runEvents idx evs).2.map Prod.snd := by
  induction evs generalizing idx with
  | nil => simpa [runEvents] using hc
  | cons e rest ih =>
    rw [runEvents]
    obtain ⟨ih1, ih2⟩ := ih (zinsert e.2 idx) (subset_zinsert e.2 idx hc)
    by_cases hadd : e.2 ∈ idx
    · rw [if_pos hadd]
      exact ⟨ih1, ih2⟩
    · rw [if_neg hadd]
      refine ⟨ih1, ?_⟩
      intro hmem
      rw [List.map_cons] at hmem
      rcases List.mem_cons.mp hmem with hce | hmem2
      · exact hadd (hce ▸ hc)
      · exact ih2 hmem2

theorem runEvents_nodup (evs : List (Nat × Int)) (idx : List Int) :
    ((runEvents idx evs).2.map Prod.snd).Nodup := by
  induction evs generalizing idx with
  | nil => simp [runEvents]
  | cons e rest ih =>
    rw [runEvents]
    by_cases hadd : e.2 ∈ idx
    · rw [if_pos hadd]
      exact ih (zinsert e.2 idx)
    · rw [if_neg hadd]
      have habs := runEvents_absorb rest (zinsert e.2 idx) e.2 (self_mem_zinsert e.2 idx)
      rw [List.map_cons, List.nodup_cons]
      exact ⟨habs.2, ih (zinsert e.2 idx)⟩

theorem addAll_preserves (s : Store) (t : Thread) (id : Int)
    (hInv : ∀ u, s.approvedIdx u ⊆ s.allIdx u) :
    (∀ u, (addAll s t id).approvedIdx u ⊆ (addAll s t id).allIdx u) ∧
    (∀ u, s.allIdx u ⊆ (addAll s t id).allIdx u) := by
  constructor
  · intro u a ha
    simp only [addAll] at ha ⊢
    split
    · exact subset_zinsert id (s.allIdx u) (hInv u ha)
    · exact hInv u ha
  · intro u a ha
    simp only [addAll]
    split
    · exact subset_zinsert id (s.allIdx u) ha
    · exact ha

theorem addApproved_preserves (s : Store) (t : Thread) (id : Int)
    (hid : id ∈ s.allIdx t)
    (hInv : ∀ u, s.approvedIdx u ⊆ s.allIdx u) :
    ∀ u, (addApproved s t id).approvedIdx u ⊆ (addApproved s t id).allIdx u := by
  intro u a ha
  simp only [addApproved] at ha ⊢
  by_cases hu : u = t
  · subst hu
    rw [if_pos rfl] at ha
    exact zinsert_subset id (s.approvedIdx u) (s.allIdx u) hid (hInv u) ha
  · rw [if_neg hu] at ha
    exact hInv u ha

/-! ## Concrete sample data -/

/-- The thread of `https://example.com/post`. -/
def sampleThread : Thread := ⟨"example.com", "/post"⟩

/-- A store with nothing in it. -/
def emptyStore : Store :=
  ⟨[], fun _ => none, fun _ => [], fun _ => [], fun _ _ => none⟩

/-- An empty store whose `auto_enable` set holds `example.com`. -/
def sampleStore : Store :=
  ⟨["example.com"], fun _ => none, fun _ => [], fun _ => [], fun _ _ => none⟩

/-- An empty store where every thread's `:enabled` flag is already `true`. -/
def enabledStore : Store :=
  ⟨[], fun _ => some true, fun _ => [], fun _ => [], fun _ _ => none⟩

/-- A valid submission for `https://example.com/post`. -/
def sampleInput : SubmitInput :=
  ⟨"https://example.com/post", some ("example.com", "/post"), "a", "", "",
   "hello", "1.2.3.4", "agent", ""⟩

/-- The request `cleanCommentSubmitRequest` produces from `sampleInput`. -/
def sampleReq : commentSubmitRequest :=
  ⟨"https://example.com/post", "example.com", "/post", "1.2.3.4", "agent", "",
   "a", "", "", "hello"⟩

/-! ## The claims -/

/-- Claim C4: when no spam-classifier credential is configured (`akismetKey`
is the empty string), `autoApproveComment` returns `approved = false` with
no error, issues no Redis command and no HTTP request (empty effect
trace), and leaves the store — in particular `ApprovedIndex` — unchanged. -/
theorem noKey_fails_closed (hgf : Bool) (resp : Option String) (zf : Bool)
    (s : Store) (host path : String) (id : Int) :
    autoApproveComment ("") hgf resp zf s host path id = (.ok false, s, []) := rfl

/-- Claim C2: identifiers returned by the allocator are unique within a
thread. First conjunct: a completed allocation run returns an id that was
absent from `AllIndex(thread)` before, is a member afterwards, whose last
(successful) ZADD inserted exactly that id, and which is the wall-clock
sample of a non-failed iteration. Second conjunct: a second allocation
starting from the first one's post-state returns a different id. Third
conjunct: in any serialized interleaving of ZADD attempts by concurrent
submitters on one thread (Redis executes commands atomically one at a
time), the identifiers of the successful insertions are pairwise distinct
— even when candidates repeat because two submissions sampled the same
wall-clock second. -/
theorem allocator_ids_unique :
    (∀ (t : Thread) (steps : List ZStep) (s : Store) (id : Int) (s₁ : Store)
        (effs : List Effect),
        saveCommentLoop t steps s = some (.ok id, s₁, effs) →
        id ∉ s.allIdx t ∧ id ∈ s₁.allIdx t ∧
        effs.getLast? = some (.redis (.zadd (keyAll t.host t.path) id id)) ∧
        ∃ st ∈ steps, st.zaddFail = false ∧ st.time = id) ∧
    (∀ (t : Thread) (steps₁ steps₂ : List ZStep) (s s₁ s₂ : Store) (id₁ id₂ : Int)
        (e₁ e₂ : List Effect),
        saveCommentLoop t steps₁ s = some (.ok id₁, s₁, e₁) →
        saveCommentLoop t steps₂ s₁ = some (.ok id₂, s₂, e₂) → id₁ ≠ id₂) ∧
    (∀ (idx : List Int) (evs : List (Nat × Int)),
        ((runEvents idx evs).2.map Prod.snd).Nodup) := by
  refine ⟨?_, ?_, ?_⟩
  · intro t steps s id s₁ effs h
    obtain ⟨hid, hst, hlast, hex⟩ := saveCommentLoop_ok t steps s id s₁ effs h
    subst hst
    refine ⟨hid, ?_, hlast, hex⟩
    simp only [addAll, if_pos rfl]
    exact self_mem_zinsert id (s.allIdx t)
  · intro t steps₁ steps₂ s s₁ s₂ id₁ id₂ e₁ e₂ h₁ h₂
    obtain ⟨-, hst, -, -⟩ := saveCommentLoop_ok t steps₁ s id₁ s₁ e₁ h₁
    obtain ⟨hid₂, -, -, -⟩ := saveCommentLoop_ok t steps₂ s₁ id₂ s₂ e₂ h₂
    intro heq
    subst hst
    subst heq
    apply hid₂
    simp only [addAll, if_pos rfl]
    exact self_mem_zinsert id₁ (s.allIdx t)
  · intro idx evs
    exact runEvents_nodup evs idx

/-- Witness for C2: allocating on the empty store with the single sample
`100` inserts `100` into the thread's `AllIndex`. -/
theorem allocator_ids_unique_witness :
    (100 : Int) ∈ (addAll emptyStore sampleThread 100).allIdx sampleThread :=
  (allocator_ids_unique.1 sampleThread [⟨100, false⟩] emptyStore 100
    (addAll emptyStore sampleThread 100)
    [.redis (.zadd (keyAll ("example.com") ("/post")) 100 100)] rfl).2.1

/-- Claim C3: `autoEnabled` resolves enablement exactly as specified (given
that the GET and SISMEMBER reads themselves succeed). A present
`EnablementFlag` is returned as-is with no write (the effect trace is just
the GET). An absent flag with the host in `AutoEnableSet` yields `true`
and caches `EnablementFlag(thread) = true`; if that cache SET fails the
resolution still returns `true` with no error and the store is simply
unchanged. An absent flag with the host not in the set yields `false` and
persists nothing — the trace is GET then SISMEMBER, with no SET. -/
theorem autoEnabled_resolution (f : AEFaults) (s : Store) (t : Thread)
    (hg : f.getFail = false) (hs : f.sisFail = false) :
    (∀ b, s.enabled t = some b →
        autoEnabled f s t = (.ok b, s, [.redis (.get (keyEnabled t.host t.path))])) ∧
    (s.enabled t = none → t.host ∈ s.autoEnable →
        (autoEnabled f s t).1 = .ok true ∧
        (f.setFail = false → (autoEnabled f s t).2.1 = setEnabled s t true ∧
            ((autoEnabled f s t).2.1).enabled t = some true) ∧
        (f.setFail = true → (autoEnabled f s t).2.1 = s)) ∧
    (s.enabled t = none → t.host ∉ s.autoEnable →
        autoEnabled f s t = (.ok false, s,
          [.redis (.get (keyEnabled t.host t.path)),
           .redis (.sismember keyAutoEnable t.host)])) := by
  refine ⟨?_, ?_, ?_⟩
  · intro b hb
    unfold autoEnabled
    simp [hg, hb]
  · intro hnone hmem
    cases hsf : f.setFail
    · unfold autoEnabled
      simp [hg, hs, hnone, hmem, hsf, setEnabled]
    · unfold autoEnabled
      simp [hg, hs, hnone, hmem, hsf]
  · intro hnone hmem
    unfold autoEnabled
    simp [hg, hs, hnone, hmem]

/-- Witness for C3: on `sampleStore` (no flag, `example.com` allow-listed)
the resolution returns enabled and caches the flag as `true`. -/
theorem autoEnabled_resolution_witness :
    (autoEnabled ⟨false, false, false⟩ sampleStore sampleThread).1 = .ok true ∧
    ((autoEnabled ⟨false, false, false⟩ sampleStore sampleThread).2.1).enabled
      sampleThread = some true := by
  have h := (autoEnabled_resolution ⟨false, false, false⟩ sampleStore sampleThread
    rfl rfl).2.1 rfl (by decide)
  exact ⟨h.1, (h.2.1 rfl).2⟩

/-- Claim C7: with the store reachable (no connection faults),
`getComments` returns the rendered entries of the listed identifiers —
the approved ids ascending, at most 10 of them (`ZRANGEBYSCORE ... LIMIT
0 10` on a zset whose member list is ascending) — and on a thread with no
approved comments it returns the empty list (Go's `make([]comment, 0)`),
not an error. The ascending-order conjunct needs the zset well-formedness
a real Redis zset always has: its member list is strictly sorted. -/
theorem getComments_bounded_sorted (s : Store) (t : Thread)
    (hsorted : (s.approvedIdx t).Sorted (· < ·)) :
    (getComments false (fun _ => false) s t).1 =
      .ok ((listedIds s t).map (renderComment s t)) ∧
    (listedIds s t).Sorted (· < ·) ∧
    (∀ id ∈ listedIds s t, id ∈ s.approvedIdx t) ∧
    ((listedIds s t).map (renderComment s t)).length ≤ 10 ∧
    (s.approvedIdx t = [] → (getComments false (fun _ => false) s t).1 = .ok []) := by
  refine ⟨?_, ?_, ?_, ?_, ?_⟩
  · unfold getComments
    rw [getCommentsLoop_nofail]
    simp
  · exact List.Pairwise.sublist (List.take_sublist 10 (s.approvedIdx t)) hsorted
  · intro id hid
    exact (List.take_sublist 10 (s.approvedIdx t)).mem hid
  · rw [List.length_map]
    exact List.length_take_le 10 (s.approvedIdx t)
  · intro hempty
    unfold getComments
    rw [getCommentsLoop_nofail]
    simp [listedIds, hempty]

/-- Witness for C7: a thread with approved ids `[3, 5]` lists both,
ascending. -/
theorem getComments_bounded_sorted_witness :
    (getComments false (fun _ => false)
        ⟨[], fun _ => none, fun _ => [3, 5], fun _ => [3, 5], fun _ _ => none⟩
        sampleThread).1 =
      .ok ((listedIds
        ⟨[], fun _ => none, fun _ => [3, 5], fun _ => [3, 5], fun _ _ => none⟩
        sampleThread).map (renderComment
        ⟨[], fun _ => none, fun _ => [3, 5], fun _ => [3, 5], fun _ _ => none⟩
        sampleThread)) :=
  (getComments_bounded_sorted
    ⟨[], fun _ => none, fun _ => [3, 5], fun _ => [3, 5], fun _ _ => none⟩
    sampleThread (by decide)).1

/-- A store whose `:approved` index for `sampleThread` references id `5`,
for which no comment record exists — the corrupt-index situation of C6. -/
def corruptStore : Store :=
  ⟨[], fun _ => none,
   fun u => if u = sampleThread then [5] else [],
   fun u => if u = sampleThread then [5] else [],
   fun _ _ => none⟩

/-- Counterexample to Claim C6 as stated: on `corruptStore`, where
`ApprovedIndex` references id `5` but no comment record exists at
`(thread, 5)`, `getComments` does NOT fail. HGETALL on a missing hash key
returns an empty reply (not an error), `redis.ScanStruct` fills the
zero-valued struct from it, and the listing succeeds with a placeholder
entry `{id: "5", author: "", content: ""}`. -/
theorem corrupt_index_no_error :
    getComments false (fun _ => false) corruptStore sampleThread =
      (.ok [⟨"5", "", ""⟩],
       [.redis (.zrangebyscore (keyApproved ("example.com") ("/post"))),
        .redis (.hgetall (keyComment ("example.com") ("/post") 5))]) := rfl

/-- Claim C6 (amended): if `ApprovedIndex(thread)` lists an identifier
whose comment record is missing from storage, `getComments` does not fail
and does not skip the entry: it renders a placeholder entry carrying the
identifier and empty (escaped) author and content. Only a connection
error makes the read fail. -/
theorem corrupt_index_placeholder (s : Store) (t : Thread) (id : Int)
    (hid : id ∈ listedIds s t) (hmiss : s.commentRec t id = none) :
    (getComments false (fun _ => false) s t).1 =
      .ok ((listedIds s t).map (renderComment s t)) ∧
    (⟨toString id, "", ""⟩ : comment) ∈ (listedIds s t).map (renderComment s t) := by
  constructor
  · unfold getComments
    rw [getCommentsLoop_nofail]
    simp
  · refine List.mem_map.mpr ⟨id, hid, ?_⟩
    simp [renderComment, hmiss, emptyRecord]
    rfl

/-- Witness for the amended C6: the placeholder entry for the corrupt id
`5` of `corruptStore` is in the listing. -/
theorem corrupt_index_placeholder_witness :
    (⟨toString (5 : Int), "", ""⟩ : comment) ∈
      (listedIds corruptStore sampleThread).map
        (renderComment corruptStore sampleThread) :=
  (corrupt_index_placeholder corruptStore sampleThread 5 (by decide) rfl).2

/-- Claim C8 (amended): the stored-then-promoted round-trip holds for
threads that had fewer than 10 approved comments: after `saveComment`
stores the comment and `autoApproveComment` (non-spam verdict, no faults)
promotes it, `getComments` returns an entry carrying the stored identifier
and the stored author and content with HTML-special characters escaped.
(Unconditionally, the listing is cut to the first 10 approved ids, so a
promoted comment beyond that page does not appear at all — see the
counterexample.) -/
theorem roundtrip_escaped (steps : List ZStep) (req : commentSubmitRequest) (s : Store)
    (id : Int) (s₂ : Store) (e₂ : List Effect) (ak body : String)
    (hak : ¬ak = "") (hbody : goParseBool body = some false)
    (hsave : saveComment steps false req s = some (.ok id, s₂, e₂))
    (hsmall : (s.approvedIdx ⟨req.host, req.path⟩).length < 10) :
    (autoApproveComment ak false (some body) false s₂ req.host req.path id).2.1 =
      addApproved s₂ ⟨req.host, req.path⟩ id ∧
    (getComments false (fun _ => false)
        (addApproved s₂ ⟨req.host, req.path⟩ id) ⟨req.host, req.path⟩).1 =
      .ok ((listedIds (addApproved s₂ ⟨req.host, req.path⟩ id) ⟨req.host, req.path⟩).map
        (renderComment (addApproved s₂ ⟨req.host, req.path⟩ id) ⟨req.host, req.path⟩)) ∧
    (⟨toString id, escapeString req.Author, escapeString req.Content⟩ : comment) ∈
      (listedIds (addApproved s₂ ⟨req.host, req.path⟩ id) ⟨req.host, req.path⟩).map
        (renderComment (addApproved s₂ ⟨req.host, req.path⟩ id) ⟨req.host, req.path⟩) := by
  obtain ⟨hid, hs₂⟩ := saveComment_ok steps false req s id s₂ e₂ hsave
  refine ⟨?_, ?_, ?_⟩
  · unfold autoApproveComment
    simp [hak, hbody]
  · unfold getComments
    rw [getCommentsLoop_nofail]
    simp
  · subst hs₂
    have happr : (addApproved
        (putRecord (addAll s ⟨req.host, req.path⟩ id) ⟨req.host, req.path⟩ id (recordOf req))
        ⟨req.host, req.path⟩ id).approvedIdx ⟨req.host, req.path⟩ =
        zinsert id (s.approvedIdx ⟨req.host, req.path⟩) := by
      simp [addApproved, putRecord, addAll]
    have hlist : listedIds (addApproved
        (putRecord (addAll s ⟨req.host, req.path⟩ id) ⟨req.host, req.path⟩ id (recordOf req))
        ⟨req.host, req.path⟩ id) ⟨req.host, req.path⟩ =
        zinsert id (s.approvedIdx ⟨req.host, req.path⟩) := by
      unfold listedIds
      rw [happr]
      apply List.take_of_length_le
      have := length_zinsert_le id (s.approvedIdx ⟨req.host, req.path⟩)
      omega
    refine List.mem_map.mpr ⟨id, ?_, ?_⟩
    · rw [hlist]
      exact self_mem_zinsert id (s.approvedIdx ⟨req.host, req.path⟩)
    · have hrec : (addApproved
          (putRecord (addAll s ⟨req.host, req.path⟩ id) ⟨req.host, req.path⟩ id (recordOf req))
          ⟨req.host, req.path⟩ id).commentRec ⟨req.host, req.path⟩ id =
          some (recordOf req) := by
        simp [addApproved, putRecord]
      simp only [renderComment, hrec, Option.getD_some]
      rfl

/-- Witness for the amended C8: the post-save store of a submission of
author `"a"`, content `"hello"` at id `100` on `enabledStore`. -/
def roundtripSaved : Store :=
  putRecord (addAll enabledStore sampleThread 100) sampleThread 100 (recordOf sampleReq)

/-- Witness for the amended C8: the freshly stored and promoted comment of
`sampleReq` (id `100`) appears in the listing with its author and content
escaped. -/
theorem roundtrip_escaped_witness :
    (⟨toString (100 : Int), escapeString sampleReq.Author,
        escapeString sampleReq.Content⟩ : comment) ∈
      (listedIds (addApproved roundtripSaved ⟨sampleReq.host, sampleReq.path⟩ 100)
          ⟨sampleReq.host, sampleReq.path⟩).map
        (renderComment (addApproved roundtripSaved ⟨sampleReq.host, sampleReq.path⟩ 100)
          ⟨sampleReq.host, sampleReq.path⟩) :=
  (roundtrip_escaped [⟨100, false⟩] sampleReq enabledStore 100 roundtripSaved
    [.redis (.zadd (keyAll ("example.com") ("/post")) 100 100),
     .redis (.hmset (keyComment ("example.com") ("/post") 100))]
    ("key") ("false") (by decide) rfl rfl (by decide)).2.2

/-- A thread that already carries ten approved comments `1..10` (each with
a stored record by author `bob`), with its `:enabled` flag set. -/
def fullStore : Store :=
  ⟨[], fun _ => some true,
   fun u => if u = sampleThread then [1, 2, 3, 4, 5, 6, 7, 8, 9, 10] else [],
   fun u => if u = sampleThread then [1, 2, 3, 4, 5, 6, 7, 8, 9, 10] else [],
   fun u j => if u = sampleThread ∧ 1 ≤ j ∧ j ≤ 10 then
     some ⟨"https://example.com/post", "ip", "ua", "ref", "bob", "", "", "older"⟩
   else none⟩

/-- `fullStore` after `saveComment` stores `sampleReq` at id `11`. -/
def fullSaved : Store :=
  putRecord (addAll fullStore sampleThread 11) sampleThread 11 (recordOf sampleReq)

/-- `fullSaved` after the non-spam verdict promotes id `11`. -/
def fullApproved : Store := addApproved fullSaved sampleThread 11

/-- Counterexample to Claim C8 as stated: on a thread that already has ten
approved comments, a new comment (id `11`, author `"a"`, content
`"hello"`) is stored by `saveComment` and promoted by
`autoApproveComment` (its ZADD reports a new insertion, `.ok true`), yet
`getComments` — which cuts the ascending listing to 10 entries — returns
only ids `1..10`: no entry carries the stored identifier `11` or the
stored author/content at all. -/
theorem roundtrip_limit_counterexample :
    saveComment [⟨11, false⟩] false sampleReq fullStore =
      some (.ok 11, fullSaved,
        [.redis (.zadd (keyAll ("example.com") ("/post")) 11 11),
         .redis (.hmset (keyComment ("example.com") ("/post") 11))]) ∧
    autoApproveComment ("key") false (some ("false")) false fullSaved
        ("example.com") ("/post") 11 =
      (.ok true, fullApproved,
        [.redis (.hgetall (keyComment ("example.com") ("/post") 11)),
         .httpPostForm (akismetCheckURL ("key")),
         .redis (.zadd (keyApproved ("example.com") ("/post")) 11 11)]) ∧
    (getComments false (fun _ => false) fullApproved sampleThread).1 =
      .ok [⟨"1", "bob", "older"⟩, ⟨"2", "bob", "older"⟩, ⟨"3", "bob", "older"⟩,
           ⟨"4", "bob", "older"⟩, ⟨"5", "bob", "older"⟩, ⟨"6", "bob", "older"⟩,
           ⟨"7", "bob", "older"⟩, ⟨"8", "bob", "older"⟩, ⟨"9", "bob", "older"⟩,
           ⟨"10", "bob", "older"⟩] ∧
    (⟨"11", "a", "hello"⟩ : comment) ∉
      ([⟨"1", "bob", "older"⟩, ⟨"2", "bob", "older"⟩, ⟨"3", "bob", "older"⟩,
        ⟨"4", "bob", "older"⟩, ⟨"5", "bob", "older"⟩, ⟨"6", "bob", "older"⟩,
        ⟨"7", "bob", "older"⟩, ⟨"8", "bob", "older"⟩, ⟨"9", "bob", "older"⟩,
        ⟨"10", "bob", "older"⟩] : List comment) :=
  ⟨rfl, rfl, rfl, by decide⟩

/-- Counterexample to Claim C9 as stated: the GET/read path never checks
the host. Go's `url.Parse` accepts the relative reference `"/post"`
(empty `Host`, no error), and the handler proceeds straight to
`getComments`, issuing a ZRANGEBYSCORE whose key
`{luit.eu/comments:///post}:approved` is derived from the empty host —
a store access, not a rejection. -/
theorem empty_host_get_reads_store :
    commentHandlerGET (some ("", "/post")) false (fun _ => false) emptyStore =
      (.jsonOK [], [.redis (.zrangebyscore (keyApproved ("") ("/post")))]) := rfl

/-- Claim C9 (amended): only the write path rejects an empty authority
before touching the store: on POST, `cleanCommentSubmitRequest` fails with
`bad url value` and the handler answers 400 with the store untouched and
an empty effect trace. The read path performs no such check: its first
effect is the ZRANGEBYSCORE on the key derived from the empty host. -/
theorem empty_host_write_rejected (ak : String) (f : AEFaults) (steps : List ZStep)
    (hmf hgf : Bool) (resp : Option String) (zf : Bool) (input : SubmitInput)
    (s : Store) (p : String) (zrf : Bool) (hgf₂ : Int → Bool)
    (hurl : input.parsed = some ("", p)) :
    commentHandlerPOST ak f steps hmf hgf resp zf input s =
      some (.badRequest ("bad url value"), s, []) ∧
    (commentHandlerGET (some ("", p)) zrf hgf₂ s).2.head? =
      some (.redis (.zrangebyscore (keyApproved ("") p))) := by
  constructor
  · simp [commentHandlerPOST, cleanCommentSubmitRequest, hurl]
  · unfold commentHandlerGET getComments
    by_cases hz : zrf
    · simp [hz]
    · simp only [hz, Bool.false_eq_true, if_false]
      rcases hloop : getCommentsLoop hgf₂ s ⟨"", p⟩ (listedIds s ⟨"", p⟩) with ⟨q, effs⟩
      match q with
      | .error e => simp [hloop]
      | .ok cs => simp [hloop]

/-- Witness for the amended C9: a POST whose `url` form value was `/post`
(parsed: empty host) is rejected with no store effects. -/
theorem empty_host_write_rejected_witness :
    commentHandlerPOST ("") ⟨false, false, false⟩ [] false false none false
        ⟨"/post", some ("", "/post"), "a", "", "", "hello", "ip", "ua", ""⟩
        emptyStore =
      some (.badRequest ("bad url value"), emptyStore, []) :=
  (empty_host_write_rejected ("") ⟨false, false, false⟩ [] false false none false
    ⟨"/post", some ("", "/post"), "a", "", "", "hello", "ip", "ua", ""⟩
    emptyStore ("/post") false (fun _ => false) rfl).1

/-- Claim C5: once `saveComment` has returned an id, an error from
`autoApproveComment` (missing credential is not an error; this covers
HGETALL failure, classifier network failure, a non-boolean response body,
and ZADD failure) does not fail the submission: the handler still answers
with the redirect to the permalink, the comment record and the id's
`AllIndex` membership persist, and `ApprovedIndex` is exactly what it was
before the submission — the id is simply not promoted. -/
theorem classifier_error_nonfatal (ak : String) (f : AEFaults) (steps : List ZStep)
    (hmf hgf : Bool) (resp : Option String) (zf : Bool) (input : SubmitInput)
    (s s₁ s₂ : Store) (req : commentSubmitRequest) (id : Int) (e₁ e₂ : List Effect)
    (hform : cleanCommentSubmitRequest input = .ok req)
    (hen : autoEnabled f s ⟨req.host, req.path⟩ = (.ok true, s₁, e₁))
    (hsave : saveComment steps hmf req s₁ = some (.ok id, s₂, e₂))
    (herr : (autoApproveComment ak hgf resp zf s₂ req.host req.path id).1 = .error ()) :
    commentHandlerPOST ak f steps hmf hgf resp zf input s =
      some (.redirect req.Permalink, s₂,
        e₁ ++ e₂ ++ (autoApproveComment ak hgf resp zf s₂ req.host req.path id).2.2) ∧
    s₂.commentRec ⟨req.host, req.path⟩ id = some (recordOf req) ∧
    id ∈ s₂.allIdx ⟨req.host, req.path⟩ ∧
    s₂.approvedIdx = s.approvedIdx := by
  obtain ⟨hid, hs₂⟩ := saveComment_ok steps hmf req s₁ id s₂ e₂ hsave
  have hstate := autoApproveComment_error_state ak hgf resp zf s₂ req.host req.path id herr
  have hidx := autoEnabled_indices f s ⟨req.host, req.path⟩
  rw [hen] at hidx
  refine ⟨?_, ?_, ?_, ?_⟩
  · simp only [commentHandlerPOST, hform, hen, hsave, hstate]
  · subst hs₂
    simp [putRecord]
  · subst hs₂
    simp only [putRecord, addAll]
    simpa using self_mem_zinsert id (s₁.allIdx ⟨req.host, req.path⟩)
  · subst hs₂
    exact hidx.2.1

/-- The store after `saveComment` stores `sampleReq` at id `100` on
`enabledStore`. -/
def savedStore : Store :=
  putRecord (addAll enabledStore sampleThread 100) sampleThread 100 (recordOf sampleReq)

/-- Witness for C5: a full POST on `enabledStore` whose classifier call
fails on the network (`resp = none`, credential `"key"`) still redirects,
and the saved comment is durable. -/
theorem classifier_error_nonfatal_witness :
    commentHandlerPOST ("key") ⟨false, false, false⟩ [⟨100, false⟩] false false none false
        sampleInput enabledStore =
      some (.redirect ("https://example.com/post"), savedStore,
        [.redis (.get (keyEnabled ("example.com") ("/post")))] ++
          [.redis (.zadd (keyAll ("example.com") ("/post")) 100 100),
           .redis (.hmset (keyComment ("example.com") ("/post") 100))] ++
          (autoApproveComment ("key") false none false savedStore ("example.com") ("/post")
            100).2.2) ∧
    (100 : Int) ∈ savedStore.allIdx sampleThread := by
  have h := classifier_error_nonfatal ("key") ⟨false, false, false⟩ [⟨100, false⟩]
    false false none false sampleInput enabledStore enabledStore savedStore sampleReq 100
    [.redis (.get (keyEnabled ("example.com") ("/post")))]
    [.redis (.zadd (keyAll ("example.com") ("/post")) 100 100),
     .redis (.hmset (keyComment ("example.com") ("/post") 100))]
    rfl rfl rfl rfl
  exact ⟨h.1, h.2.2.1⟩

/-- Claim C10: when the HMSET of the comment record fails after the
identifier was inserted into `AllIndex(thread)`, `saveComment` returns the
error, the handler reports the submission as failed (backend error), and
yet the identifier stays in `AllIndex(thread)` with no comment record at
`(thread, id)` — the index insertion is not rolled back. -/
theorem hmset_failure_keeps_index (ak : String) (f : AEFaults) (steps : List ZStep)
    (hgf : Bool) (resp : Option String) (zf : Bool) (input : SubmitInput)
    (s s₁ s₂ : Store) (req : commentSubmitRequest) (id : Int) (e₁ e₂ : List Effect)
    (hform : cleanCommentSubmitRequest input = .ok req)
    (hen : autoEnabled f s ⟨req.host, req.path⟩ = (.ok true, s₁, e₁))
    (hloop : saveCommentLoop ⟨req.host, req.path⟩ steps s₁ = some (.ok id, s₂, e₂))
    (hmiss : s₁.commentRec ⟨req.host, req.path⟩ id = none) :
    saveComment steps true req s₁ =
      some (.error (), s₂, e₂ ++ [.redis (.hmset (keyComment req.host req.path id))]) ∧
    commentHandlerPOST ak f steps true hgf resp zf input s =
      some (.backendError, s₂,
        e₁ ++ (e₂ ++ [.redis (.hmset (keyComment req.host req.path id))])) ∧
    id ∈ s₂.allIdx ⟨req.host, req.path⟩ ∧
    s₂.commentRec ⟨req.host, req.path⟩ id = none := by
  obtain ⟨hid, hst, -, -⟩ := saveCommentLoop_ok _ steps s₁ id s₂ e₂ hloop
  have hsave := saveComment_hmset_error steps req s₁ id s₂ e₂ hloop
  refine ⟨hsave, ?_, ?_, ?_⟩
  · simp only [commentHandlerPOST, hform, hen, hsave]
  · subst hst
    simp only [addAll]
    simpa using self_mem_zinsert id (s₁.allIdx ⟨req.host, req.path⟩)
  · subst hst
    exact hmiss

/-- Witness for C10: on `enabledStore`, a submission whose HMSET fails
leaves id `100` in the thread's `AllIndex` with no record stored. -/
theorem hmset_failure_keeps_index_witness :
    (100 : Int) ∈ (addAll enabledStore sampleThread 100).allIdx sampleThread ∧
    (addAll enabledStore sampleThread 100).commentRec sampleThread 100 = none := by
  have h := hmset_failure_keeps_index ("") ⟨false, false, false⟩ [⟨100, false⟩]
    false none false sampleInput enabledStore enabledStore
    (addAll enabledStore sampleThread 100) sampleReq 100
    [.redis (.get (keyEnabled ("example.com") ("/post")))]
    [.redis (.zadd (keyAll ("example.com") ("/post")) 100 100)]
    rfl rfl rfl rfl
  exact ⟨h.2.2.1, h.2.2.2⟩

/-- Claim C1: the POST handler — the only flow that writes the indices —
preserves `ApprovedIndex(u) ⊆ AllIndex(u)` for every thread `u`, and never
removes an identifier from any `AllIndex` (the final `AllIndex` contains
the initial one). The promotion inside `autoApproveComment` adds exactly
the id that `saveComment` had just inserted into `AllIndex` of the same
thread, and no operation ever removes: `autoEnabled` touches no index
and the GET path only reads. So the invariant holds at all times. -/
theorem approvedIndex_subset_allIndex (ak : String) (f : AEFaults) (steps : List ZStep)
    (hmf hgf : Bool) (resp : Option String) (zf : Bool) (input : SubmitInput)
    (s : Store) (r : HandlerResult) (s₃ : Store) (effs : List Effect)
    (hInv : ∀ u, s.approvedIdx u ⊆ s.allIdx u)
    (h : commentHandlerPOST ak f steps hmf hgf resp zf input s = some (r, s₃, effs)) :
    (∀ u, s₃.approvedIdx u ⊆ s₃.allIdx u) ∧ (∀ u, s.allIdx u ⊆ s₃.allIdx u) := by
  unfold commentHandlerPOST at h
  split at h
  · simp only [Option.some.injEq, Prod.mk.injEq] at h
    obtain ⟨-, hs, -⟩ := h
    subst hs
    exact ⟨hInv, fun u a ha => ha⟩
  · rename_i req hform
    split at h
    · rename_i a s₁ e₁ hae
      have hidx := autoEnabled_indices f s ⟨req.host, req.path⟩
      rw [hae] at hidx
      have hall : s₁.allIdx = s.allIdx := hidx.1
      have happ : s₁.approvedIdx = s.approvedIdx := hidx.2.1
      simp only [Option.some.injEq, Prod.mk.injEq] at h
      obtain ⟨-, hs, -⟩ := h
      subst hs
      rw [hall, happ]
      exact ⟨hInv, fun u a ha => ha⟩
    · rename_i s₁ e₁ hae
      have hidx := autoEnabled_indices f s ⟨req.host, req.path⟩
      rw [hae] at hidx
      have hall : s₁.allIdx = s.allIdx := hidx.1
      have happ : s₁.approvedIdx = s.approvedIdx := hidx.2.1
      simp only [Option.some.injEq, Prod.mk.injEq] at h
      obtain ⟨-, hs, -⟩ := h
      subst hs
      rw [hall, happ]
      exact ⟨hInv, fun u a ha => ha⟩
    · rename_i s₁ e₁ hae
      have hidx := autoEnabled_indices f s ⟨req.host, req.path⟩
      rw [hae] at hidx
      have hall : s₁.allIdx = s.allIdx := hidx.1
      have happ : s₁.approvedIdx = s.approvedIdx := hidx.2.1
      have hInv₁ : ∀ u, s₁.approvedIdx u ⊆ s₁.allIdx u := by
        rw [hall, happ]
        exact hInv
      split at h
      · exact Option.noConfusion h
      · rename_i a s₂ e₂ hsv
        cases a
        simp only [Option.some.injEq, Prod.mk.injEq] at h
        obtain ⟨-, hs, -⟩ := h
        subst hs
        rcases saveComment_error steps hmf req s₁ s₂ e₂ hsv with hs₂ | ⟨id, hid, hs₂⟩
        · subst hs₂
          rw [hall, happ]
          exact ⟨hInv, fun u a ha => ha⟩
        · subst hs₂
          obtain ⟨hp1, hp2⟩ := addAll_preserves s₁ ⟨req.host, req.path⟩ id hInv₁
          refine ⟨hp1, ?_⟩
          rw [hall] at hp2
          exact hp2
      · rename_i id s₂ e₂ hsv
        simp only [Option.some.injEq, Prod.mk.injEq] at h
        obtain ⟨-, hs, -⟩ := h
        subst hs
        obtain ⟨hid, hs₂⟩ := saveComment_ok steps hmf req s₁ id s₂ e₂ hsv
        subst hs₂
        obtain ⟨hp1, hp2⟩ := addAll_preserves s₁ ⟨req.host, req.path⟩ id hInv₁
        have hmono : ∀ u, s.allIdx u ⊆
            (putRecord (addAll s₁ ⟨req.host, req.path⟩ id) ⟨req.host, req.path⟩ id
              (recordOf req)).allIdx u := by
          rw [hall] at hp2
          exact hp2
        have hp1p : ∀ u,
            (putRecord (addAll s₁ ⟨req.host, req.path⟩ id) ⟨req.host, req.path⟩ id
              (recordOf req)).approvedIdx u ⊆
            (putRecord (addAll s₁ ⟨req.host, req.path⟩ id) ⟨req.host, req.path⟩ id
              (recordOf req)).allIdx u := hp1
        have hmem : id ∈
            (putRecord (addAll s₁ ⟨req.host, req.path⟩ id) ⟨req.host, req.path⟩ id
              (recordOf req)).allIdx ⟨req.host, req.path⟩ := by
          simp only [putRecord, addAll]
          simpa using self_mem_zinsert id (s₁.allIdx ⟨req.host, req.path⟩)
        rcases autoApproveComment_state ak hgf resp zf
            (putRecord (addAll s₁ ⟨req.host, req.path⟩ id) ⟨req.host, req.path⟩ id
              (recordOf req)) req.host req.path id with hst | hst <;> rw [hst]
        · exact ⟨hp1p, hmono⟩
        · exact ⟨addApproved_preserves _ ⟨req.host, req.path⟩ id hmem hp1p, hmono⟩

/-- A store whose thread already holds the comment id `7`, with comments
enabled everywhere. -/
def preStore : Store :=
  ⟨[], fun _ => some true,
   fun u => if u = sampleThread then [7] else [],
   fun _ => [], fun _ _ => none⟩

/-- Witness for C1: after a full POST on `preStore` (new id `100`), the
pre-existing id `7` is still in the thread's `AllIndex`. -/
theorem approvedIndex_subset_allIndex_witness :
    (7 : Int) ∈ (putRecord (addAll preStore sampleThread 100) sampleThread 100
      (recordOf sampleReq)).allIdx sampleThread := by
  have h := approvedIndex_subset_allIndex ("") ⟨false, false, false⟩ [⟨100, false⟩]
    false false none false sampleInput preStore
    (.redirect ("https://example.com/post"))
    (putRecord (addAll preStore sampleThread 100) sampleThread 100 (recordOf sampleReq))
    [.redis (.get (keyEnabled ("example.com") ("/post"))),
     .redis (.zadd (keyAll ("example.com") ("/post")) 100 100),
     .redis (.hmset (keyComment ("example.com") ("/post") 100))]
    (fun u => List.nil_subset _) rfl
  exact h.2 sampleThread (by decide)

end Comments
